import Mathlib

set_option maxHeartbeats 1000000

/-!
# Verification of the account-resolution / expense-posting core of `src/app/main.py`

Shallow embedding of the FastAPI service in `src/app/main.py` ("Накладные
расходы - МойСклад", v7.2).

Modelling conventions, used throughout:

* Python dicts (the JSON documents `accounts.json` and `context_map.json`, and
  the in-memory maps they hold) are insertion-ordered association lists
  `List (String × β)`; Python 3.7+ dict semantics are mirrored exactly:
  lookup returns the first (unique) binding, assignment replaces an existing
  key in place (keeping its position) and appends a fresh key at the end,
  `del` removes the binding.
* Python truthiness of optional strings (`if acc.get("access_token"):`) is
  `strTruthy`: both `None` and `""` are falsy.
* ISO-8601 timestamp strings produced by the monotone wall clock
  (`now_msk().isoformat()`) compare lexicographically exactly as the instants
  they denote compare, so `created_at` is modelled as a `Nat`.
* The outcome of each outbound HTTP call (МойСклад ERP API, vendor context
  API) is an explicit input of the embedded function, since the network is an
  external collaborator.
* Timestamp bookkeeping fields of an account record (`activated_at`,
  `updated_at`, `deactivated_at`) are omitted: no modelled code path reads
  them back.
-/

/-- One stored tenant record: a value of the `"accounts"` dict persisted in
`accounts.json` (written by `save_account`, read by `get_account` and friends).
`access_token` is `none` when the stored JSON value is `null`. -/
structure Account where
  app_id : String
  account_name : String
  status : String
  access_token : Option String
  deriving Repr, DecidableEq

/-- Python truthiness of a nullable string field: `None` and `""` are falsy.
This is the test `if d.get(k):` that `main.py` applies to `access_token`
values and to the ids extracted from a vendor context response. -/
def strTruthy : Option String → Bool
  | none => false
  | some s => s != ""

/-- Dict lookup `m.get(k)`: the value of the first (unique) binding of `k`. -/
def alist_get {β : Type} (m : List (String × β)) (k : String) : Option β :=
  (m.find? (fun p => p.1 == k)).map (·.2)

/-- Dict assignment `m[k] = v`: replaces an existing binding in place (its
position is preserved, as in Python 3.7+ dicts), else appends at the end. -/
def alist_set {β : Type} (m : List (String × β)) (k : String) (v : β) : List (String × β) :=
  if m.any (fun p => p.1 == k) then
    m.map (fun p => if p.1 == k then (k, v) else p)
  else m ++ [(k, v)]

/-- Dict deletion `del m[k]`. -/
def alist_del {β : Type} (m : List (String × β)) (k : String) : List (String × β) :=
  m.filter (fun p => p.1 != k)

/-- The `"accounts"` dict of `accounts.json`: account id → record. -/
abbrev AccountsMap := List (String × Account)

/-- `get_account` (main.py:170): plain dict lookup.  (The Python function also
copies the key into the returned dict as `account_id`; here the id travels
alongside the record where needed.) -/
def get_account (accounts : AccountsMap) (account_id : String) : Option Account :=
  alist_get accounts account_id

/-- `get_account_by_app_id` (main.py:177): the first stored account, in dict
insertion order, whose `app_id` matches and which is `active` with a truthy
token. -/
def get_account_by_app_id (accounts : AccountsMap) (app_id : String) :
    Option (String × Account) :=
  accounts.find? (fun p =>
    p.2.app_id == app_id && p.2.status == "active" && strTruthy p.2.access_token)

/-- `get_all_active_accounts` (main.py:185): every account that is `active`
with a truthy token, in dict insertion order. -/
def get_all_active_accounts (accounts : AccountsMap) : List (String × Account) :=
  accounts.filter (fun p => p.2.status == "active" && strTruthy p.2.access_token)

/-- One entry of the `"map"` dict of `context_map.json`: the session-key →
tenant cache written by `save_context_mapping`. -/
structure CtxEntry where
  account_id : String
  account_name : String
  created_at : Nat
  deriving Repr, DecidableEq

/-- The `"map"` dict of `context_map.json`: context key → cached tenant. -/
abbrev CtxMap := List (String × CtxEntry)

/-- The size-cap block of `save_context_mapping` (main.py:476-479): when the
map exceeds 10000 entries, delete the keys whose entries have the oldest
`created_at` until 10000 remain.  Python's stable `sorted` over the dict's
keys (ordered by each key's `created_at`) is modelled by the stable
`List.mergeSort` over the bindings, which compares and orders the same keys
identically; the `del` loop over the first `len - 10000` sorted keys is the
filter below, as dict keys are unique. -/
def cap_oldest (m : CtxMap) : CtxMap :=
  if m.length > 10000 then
    m.filter (fun p =>
      !((((m.mergeSort (fun a b => decide (a.2.created_at ≤ b.2.created_at))).take
            (m.length - 10000)).map Prod.fst).contains p.1))
  else m

/-- `save_context_mapping` (main.py:464): guard the key and the account (it
must exist and be `active`), write the entry, then cap the map at 10000
entries by deleting the entries with the oldest `created_at`. -/
def save_context_mapping (accounts : AccountsMap) (ctx : CtxMap)
    (context_key account_id : String) (now : Nat) : CtxMap :=
  if context_key == "" || account_id == "" then ctx
  else
    match get_account accounts account_id with
    | none => ctx
    | some acc =>
      if acc.status != "active" then ctx
      else
        cap_oldest (alist_set ctx context_key
          { account_id := account_id, account_name := acc.account_name, created_at := now })

/-- `get_account_id_from_context` (main.py:483): look the session key up in the
context map; when the mapped account is missing, not `active`, or token-less,
delete the stale entry (the deletion is persisted by `save_context_map`,
modelled by returning the updated map) and yield no account. -/
def get_account_id_from_context (accounts : AccountsMap) (ctx : CtxMap)
    (context_key : String) : Option String × CtxMap :=
  if context_key == "" then (none, ctx)
  else
    match alist_get ctx context_key with
    | none => (none, ctx)
    | some mapping =>
      match get_account accounts mapping.account_id with
      | none => (none, alist_del ctx context_key)
      | some acc =>
        if acc.status != "active" || !strTruthy acc.access_token then
          (none, alist_del ctx context_key)
        else (some mapping.account_id, ctx)

/-- The parsed body of a successful vendor `POST context/{contextKey}` call
(`get_context_from_moysklad`, main.py:512) — only the three id fields that
`resolve_account` reads.  A failed / non-200 / unconfigured call is the `none`
case of the `Option VendorCtx` input below. -/
structure VendorCtx where
  accountId : Option String
  account_id : Option String
  account_nested_id : Option String
  deriving Repr, DecidableEq

/-- The extraction `context_data.get("accountId") or context_data.get("account_id")
or context_data.get("account", {}).get("id")` followed by the truthiness test
`if account_id:` (main.py:585-588): the first truthy candidate, if any. -/
def vendorExtract (c : VendorCtx) : Option String :=
  if strTruthy c.accountId then c.accountId
  else if strTruthy c.account_id then c.account_id
  else if strTruthy c.account_nested_id then c.account_nested_id
  else none

/-- The three query parameters `resolve_account` reads (absent ⇒ `""`,
matching `request.query_params.get(k, "")`). -/
structure QueryParams where
  contextKey : String
  accountId : String
  appId : String
  deriving Repr, DecidableEq

/-- Steps 4–5 of `resolve_account` (main.py:594-608): the `appId` lookup,
then the unique-active-account fallback, else failure.  (The step helpers
`resolve_step*` are the successive fall-through blocks of the single Python
function `resolve_account`; they are split only so that the state threading is
explicit.) -/
def resolve_step45 (accounts : AccountsMap) (ctx : CtxMap) (q : QueryParams)
    (now : Nat) : Option (String × Account) × CtxMap :=
  let step5 : Option (String × Account) × CtxMap :=
    match get_all_active_accounts accounts with
    | [(accId, acc)] =>
      let ctx1 := if q.contextKey != "" then
        save_context_mapping accounts ctx q.contextKey accId now else ctx
      (some (accId, acc), ctx1)
    | _ => (none, ctx)
  if q.appId != "" then
    match get_account_by_app_id accounts q.appId with
    | some (accId, acc) =>
      let ctx1 := if q.contextKey != "" then
        save_context_mapping accounts ctx q.contextKey accId now else ctx
      (some (accId, acc), ctx1)
    | none => step5
  else step5

/-- Step 3 of `resolve_account` (main.py:582-592): the vendor context
verification call, whose outcome is the explicit input `vendor`. -/
def resolve_step3 (accounts : AccountsMap) (ctx : CtxMap) (q : QueryParams)
    (vendor : Option VendorCtx) (now : Nat) : Option (String × Account) × CtxMap :=
  if q.contextKey != "" then
    match vendor with
    | some c =>
      match vendorExtract c with
      | some accId =>
        match get_account accounts accId with
        | some acc =>
          if acc.status == "active" && strTruthy acc.access_token then
            (some (accId, acc), save_context_mapping accounts ctx q.contextKey accId now)
          else resolve_step45 accounts ctx q now
        | none => resolve_step45 accounts ctx q now
      | none => resolve_step45 accounts ctx q now
    | none => resolve_step45 accounts ctx q now
  else resolve_step45 accounts ctx q now

/-- Step 2 of `resolve_account` (main.py:575-580): the cached session-key
mapping, self-healing via `get_account_id_from_context` (which may evict a
stale entry — the updated map is threaded into the later steps). -/
def resolve_step2 (accounts : AccountsMap) (ctx : CtxMap) (q : QueryParams)
    (vendor : Option VendorCtx) (now : Nat) : Option (String × Account) × CtxMap :=
  if q.contextKey != "" then
    match get_account_id_from_context accounts ctx q.contextKey with
    | (some cachedId, ctx1) =>
      match get_account accounts cachedId with
      | some acc =>
        if acc.status == "active" then (some (cachedId, acc), ctx1)
        else resolve_step3 accounts ctx1 q vendor now
      | none => resolve_step3 accounts ctx1 q vendor now
    | (none, ctx1) => resolve_step3 accounts ctx1 q vendor now
  else resolve_step3 accounts ctx q vendor now

/-- `resolve_account` (main.py:563-608).  Inputs: the persisted stores, the
three query parameters, the outcome of the (at most one) vendor context call,
and the current clock reading.  Output: the resolved `(account_id, record)`,
if any, and the context map as left on disk. -/
def resolve_account (accounts : AccountsMap) (ctx : CtxMap) (q : QueryParams)
    (vendor : Option VendorCtx) (now : Nat) : Option (String × Account) × CtxMap :=
  if q.accountId != "" then
    match get_account accounts q.accountId with
    | some acc =>
      if acc.status == "active" && strTruthy acc.access_token then
        let ctx1 := if q.contextKey != "" then
          save_context_mapping accounts ctx q.contextKey q.accountId now else ctx
        (some (q.accountId, acc), ctx1)
      else resolve_step2 accounts ctx q vendor now
    | none => resolve_step2 accounts ctx q vendor now
  else resolve_step2 accounts ctx q vendor now

/-- The token extraction of `activate_app` (main.py:754-758): the first entry
of the payload's `access[]` list whose `access_token` is truthy; `none` when
no entry qualifies.  Each list element is that entry's `access_token` field. -/
def extract_first_token (access : List (Option String)) : Option String :=
  match access.find? (fun t => strTruthy t) with
  | some t => t
  | none => none

/-- The store mutation of the activation webhook `activate_app`
(main.py:749-767): upsert the record with status `"active"` and the first
usable token of the payload — which is `null` when the payload carried none.
(The best-effort `ensure_dictionary` call and the admin notification touch
other stores / the network only.) -/
def activate_app (accounts : AccountsMap) (app_id account_id account_name : String)
    (access : List (Option String)) : AccountsMap :=
  alist_set accounts account_id
    { app_id := app_id, account_name := account_name, status := "active",
      access_token := extract_first_token access }

/-- The store mutations of the deactivation webhook `deactivate_app`
(main.py:795-810): if the record exists, flip it to `inactive` with a `null`
token; then delete every context-map entry whose `account_id` is this tenant
(Python collects `keys_to_remove` and `del`s them one by one; as dict keys are
unique this is exactly the filter below). -/
def deactivate_app (accounts : AccountsMap) (ctx : CtxMap) (account_id : String) :
    AccountsMap × CtxMap :=
  let accounts1 :=
    match get_account accounts account_id with
    | some acc =>
      alist_set accounts account_id { acc with status := "inactive", access_token := none }
    | none => accounts
  (accounts1, ctx.filter (fun p => p.2.account_id != account_id))

/-- One inbound lifecycle webhook call, for iterating the handlers. -/
inductive LifecycleEvent
  | activate (app_id account_id account_name : String) (access : List (Option String))
  | deactivate (account_id : String)
  deriving Repr, DecidableEq

/-- The effect of one webhook call on the accounts store. -/
def applyEvent (accounts : AccountsMap) : LifecycleEvent → AccountsMap
  | .activate a i n acc => activate_app accounts a i n acc
  | .deactivate i => (deactivate_app accounts [] i).1

/-- The accounts store after a sequence of webhook calls, starting empty. -/
def runEvents (evs : List LifecycleEvent) : AccountsMap :=
  evs.foldl applyEvent []

/-- How `resp.json()` went for an HTTP response that did arrive, inside
`ms_api` (main.py:551-554).  `json.loads` can yield a JSON object (a Python
dict, the only shape the subsequent `result["_status"] = ...` assignment
accepts), some non-object value (list/number/string/null — the assignment then
raises `TypeError`), or raise because the body is not JSON at all. -/
inductive RespParse (β : Type)
  | dict (body : β)
  | nonDict
  | invalid
  deriving Repr, DecidableEq

/-- The outcome of the one `httpx` request `ms_api` makes: either a response
(any HTTP status, 4xx/5xx included) or a raised transport error. -/
inductive HttpAttempt (β : Type)
  | response (status : Nat) (parsed : RespParse β) (text : String)
  | failure (errMsg : String)
  deriving Repr, DecidableEq

/-- The dict `ms_api` returns, field per possible key: `"_status"`, `"_error"`,
`"_text"`, and the parsed JSON-object body its other keys came from. -/
structure MsResult (β : Type) where
  status : Option Nat
  err : Option String
  text : Option String
  body : Option β
  deriving Repr, DecidableEq

/-- `ms_api` (main.py:534-558).  An unknown method returns the bare
`{"_error": "Unknown method"}` before any request is made.  Otherwise the
whole request/parse/annotate block sits in one `try`: a transport error is
caught and reported as `_status` 0; a response whose body parses to a JSON
object is returned with `_status` set to the HTTP code; an unparseable body
falls back to `{"_text": resp.text[:1000]}` plus the code; a body parsing to a
non-object makes `result["_status"] = resp.status_code` raise `TypeError`,
which the same outer `except` converts to a `_status` 0 error result.  The
function is total: no branch re-raises to the caller. -/
def ms_api {β : Type} (method : String) (att : HttpAttempt β) : MsResult β :=
  if !(method == "GET" || method == "POST" || method == "PUT") then
    { status := none, err := some "Unknown method", text := none, body := none }
  else
    match att with
    | .failure msg => { status := some 0, err := some msg, text := none, body := none }
    | .response code parsed text =>
      match parsed with
      | .dict b => { status := some code, err := none, text := none, body := some b }
      | .invalid =>
        { status := some code, err := none, text := some (text.take 1000), body := none }
      | .nonDict =>
        { status := some 0,
          err := some "TypeError: list indices must be integers or slices, not str",
          text := none, body := none }

/-- One line of the inbound `POST /api/process-expenses` batch, as read by the
loop at main.py:1045-1048: the raw `demandNumber`, the numeric `expense`
(already a number; `float()` applied), the optional per-item category.  The
amount is the exact rational value of the binary64 float it arrived as. -/
structure ExpenseItem where
  demandNumber : String
  expense : ℚ
  category : Option String
  deriving Repr, DecidableEq

/-- What the ERP did for one non-skipped batch item: the document search
failed, or the overhead update failed, or it succeeded with the new total
(main.py:1056-1068). -/
inductive DocOutcome
  | notFound (err : String)
  | updateFailed (err : String)
  | updated (total : ℚ)
  deriving Repr, DecidableEq

/-- The structured records `ProcessingLog` accumulates: `results` (one per
`log_success`: docNumber, added, total) and `errors` (one per `log_error`:
docNumber, expense, error). -/
structure BatchLog where
  results : List (String × ℚ × ℚ)
  errors : List (String × ℚ × String)
  deriving Repr, DecidableEq

/-- One iteration of the `for idx, item in enumerate(expenses, 1)` loop of
`process_expenses` (main.py:1045-1068): strip the document number, skip
silently when it is blank or the amount is not positive, else record exactly
one success or one error according to the ERP outcome for this index. -/
def processItem (oc : Nat → DocOutcome) (log : BatchLog) (idx : Nat)
    (item : ExpenseItem) : BatchLog :=
  let num := item.demandNumber.trim
  let val := item.expense
  if num == "" || val ≤ 0 then log
  else
    match oc idx with
    | .notFound e => { log with errors := log.errors ++ [(num, val, e)] }
    | .updateFailed e => { log with errors := log.errors ++ [(num, val, e)] }
    | .updated total => { log with results := log.results ++ [(num, val, total)] }

/-- The batch loop from position `idx` onwards. -/
def processFrom (oc : Nat → DocOutcome) : Nat → BatchLog → List ExpenseItem → BatchLog
  | _, log, [] => log
  | idx, log, item :: rest => processFrom oc (idx + 1) (processItem oc log idx item) rest

/-- The item loop of `process_expenses` (main.py:1045-1068) over a whole
batch, starting from the empty log; `oc` gives the ERP's behaviour at each
(1-based) position.  The response reports `results` and `errorDetails` from
the final log verbatim (main.py:1086-1098). -/
def process_expenses (items : List ExpenseItem) (oc : Nat → DocOutcome) : BatchLog :=
  processFrom oc 1 { results := [], errors := [] } items

/-- An input item the loop skips: blank stripped document number or
non-positive amount (main.py:1050-1051). -/
def skipped (item : ExpenseItem) : Prop :=
  item.demandNumber.trim = "" ∨ item.expense ≤ 0
instance (item : ExpenseItem) : Decidable (skipped item) := by
  unfold skipped; infer_instance

/-- Python `int()` on a (here: finite rational-valued) float: truncation
toward zero. -/
def pyInt (q : ℚ) : ℤ := if 0 ≤ q then ⌊q⌋ else ⌈q⌉

/-- IEEE-754 binary64 rounding of an exact rational: snap to the grid of
doubles `m · 2^(e-52)`, `2^e ≤ |q| < 2^(e+1)`, rounding to the nearest grid
point.  (`round` breaks exact halves upward where IEEE breaks them to even;
no value in this development lands on a half.  Overflow/subnormal ranges are
not modelled; every value used is well inside the normal range.) -/
def fl64 (q : ℚ) : ℚ :=
  if q = 0 then 0
  else ((round (q * (2:ℚ) ^ (52 - Int.log 2 |q|)) : ℤ) : ℚ) * (2:ℚ) ^ (Int.log 2 |q| - 52)

/-- `int(add_sum * 100)` as main.py:722 executes it on binary64 floats:
`add_sum` (itself a double) is multiplied by 100 in double arithmetic —
rounding the exact product to the nearest double — and the result truncated
toward zero. -/
def py_int_mul_100 (add_sum : ℚ) : ℤ := pyInt (fl64 (add_sum * 100))

/-- The stored-total arithmetic of `update_document_overhead`
(main.py:712-743): read the document's current `overhead.sum` (an integer
minor-unit amount; absent or falsy ⇒ 0), and write back
`current + int(add_sum * 100)`.  The prior total is read and added to, never
overwritten. -/
def update_document_overhead (overhead_sum : Option ℤ) (add_sum : ℚ) : ℤ :=
  (match overhead_sum with
   | some s => if s != 0 then s else 0
   | none => 0) + py_int_mul_100 add_sum

/-- The binary64 double produced by parsing the decimal literal `0.29`
(JSON number → Python float): `29/100` lies in the binade `[2^-2, 2^-1)`,
whose doubles have spacing `2^-54`. -/
def double_0_29 : ℚ := fl64 ((29 : ℚ) / 100)

/-! ## Association-list (Python dict) lemmas -/

lemma alist_get_set_self {β : Type} (m : List (String × β)) (k : String) (v : β) :
    alist_get (alist_set m k v) k = some v := by
  unfold alist_set
  by_cases h : m.any (fun p => p.1 == k)
  · rw [if_pos h]
    induction m with
    | nil => simp at h
    | cons p rest ih =>
      by_cases hp : p.1 == k
      · simp [alist_get, List.find?, hp]
      · have hrest : rest.any (fun p => p.1 == k) := by
          simp only [List.any_cons, hp, Bool.false_or] at h
          exact h
        simpa [alist_get, List.find?, hp] using ih hrest
  · rw [if_neg h]
    induction m with
    | nil => simp [alist_get]
    | cons p rest ih =>
      have hp : (p.1 == k) = false := by
        simp only [List.any_cons, Bool.or_eq_true] at h
        exact Bool.eq_false_iff.mpr (fun hc => h (Or.inl hc))
      have hrest : ¬ rest.any (fun p => p.1 == k) := by
        simp only [List.any_cons, Bool.or_eq_true] at h
        exact fun hc => h (Or.inr hc)
      simpa [alist_get, List.find?, hp] using ih hrest

lemma alist_get_del_self {β : Type} (m : List (String × β)) (k : String) :
    alist_get (alist_del m k) k = none := by
  unfold alist_get alist_del
  have hfind : List.find? (fun p => p.1 == k) (List.filter (fun p => p.1 != k) m) = none := by
    rw [List.find?_eq_none]
    intro p hp
    have := (List.mem_filter.mp hp).2
    simp only [bne_iff_ne, ne_eq] at this
    simp [this]
  rw [hfind]
  rfl

lemma alist_get_del_ne {β : Type} (m : List (String × β)) (k k' : String) (h : k' ≠ k) :
    alist_get (alist_del m k) k' = alist_get m k' := by
  induction m with
  | nil => rfl
  | cons p rest ih =>
    by_cases hp : p.1 == k'
    · have hpk : (p.1 != k) = true := by
        have : p.1 = k' := by simpa using hp
        simp [this, bne_iff_ne, h]
      simp [alist_del, alist_get, List.find?, hpk, hp]
    · by_cases hk : p.1 != k
      · simpa [alist_del, alist_get, List.find?, hk, hp] using ih
      · simpa [alist_del, alist_get, List.find?, hk, hp] using ih

lemma mem_alist_set {β : Type} {m : List (String × β)} {k : String} {v : β}
    {p : String × β} (hp : p ∈ alist_set m k v) : p = (k, v) ∨ p ∈ m := by
  unfold alist_set at hp
  by_cases h : m.any (fun p => p.1 == k)
  · rw [if_pos h] at hp
    obtain ⟨q, hq, hfq⟩ := List.mem_map.mp hp
    by_cases hqk : q.1 == k
    · rw [if_pos hqk] at hfq
      exact Or.inl hfq.symm
    · rw [if_neg hqk] at hfq
      exact Or.inr (hfq ▸ hq)
  · rw [if_neg h] at hp
    rcases List.mem_append.mp hp with h1 | h1
    · exact Or.inr h1
    · exact Or.inl (by simpa using h1)

lemma keys_nodup_alist_set {β : Type} {m : List (String × β)} (k : String) (v : β)
    (h : (m.map Prod.fst).Nodup) : ((alist_set m k v).map Prod.fst).Nodup := by
  unfold alist_set
  by_cases hc : m.any (fun p => p.1 == k)
  · rw [if_pos hc]
    have hmm : (m.map (fun p => if p.1 == k then (k, v) else p)).map Prod.fst
        = m.map Prod.fst := by
      rw [List.map_map]
      apply List.map_congr_left
      intro p _
      by_cases hp : p.1 = k
      · simp [hp]
      · have hne : (p.1 == k) = false := by simpa using hp
        simp [hne, hp]
    rw [hmm]
    exact h
  · rw [if_neg hc, List.map_append]
    rw [List.nodup_append]
    refine ⟨h, List.nodup_singleton _, ?_⟩
    intro a ha hb
    simp only [List.map_cons, List.map_nil, List.mem_singleton] at hb
    subst hb
    obtain ⟨p, hp, hpk⟩ := List.mem_map.mp ha
    exact hc (List.any_eq_true.mpr ⟨p, hp, by simp [hpk]⟩)

lemma alist_unique {β : Type} {m : List (String × β)}
    (hnodup : (m.map Prod.fst).Nodup) {p r : String × β}
    (hp : p ∈ m) (hr : r ∈ m) (h : p.1 = r.1) : p = r := by
  induction m with
  | nil => cases hp
  | cons x rest ih =>
    simp only [List.map_cons, List.nodup_cons] at hnodup
    rcases List.mem_cons.mp hp with hp1 | hp1 <;>
      rcases List.mem_cons.mp hr with hr1 | hr1
    · exact hp1.trans hr1.symm
    · exact absurd (List.mem_map.mpr ⟨r, hr1, (h ▸ hp1 ▸ rfl : r.1 = x.1)⟩) hnodup.1
    · exact absurd (List.mem_map.mpr ⟨p, hp1, (h ▸ hr1 ▸ rfl : p.1 = x.1)⟩) hnodup.1
    · exact ih hnodup.2 hp1 hr1

lemma alist_get_mem {β : Type} {m : List (String × β)} {k : String} {w : β}
    (hget : alist_get m k = some w) : (k, w) ∈ m := by
  unfold alist_get at hget
  obtain ⟨p, hfind, hw⟩ := Option.map_eq_some'.mp hget
  have hmem := List.mem_of_find?_eq_some hfind
  have hk : p.1 = k := by simpa using List.find?_some hfind
  have hpw : p = (k, w) := by
    obtain ⟨a, b⟩ := p
    have ha : a = k := hk
    have hb : b = w := hw
    rw [ha, hb]
  exact hpw ▸ hmem

lemma alist_get_filter_first {β : Type} {m : List (String × β)} {k : String} {w : β}
    {pred : String × β → Bool}
    (hget : alist_get m k = some w) (hw : pred (k, w) = true) :
    alist_get (m.filter pred) k = some w := by
  induction m with
  | nil => simp [alist_get] at hget
  | cons p rest ih =>
    by_cases hp : p.1 == k
    · have hk : p.1 = k := by simpa using hp
      have hpw : p = (k, w) := by
        have hval : some p.2 = some w := by simpa [alist_get, List.find?, hp] using hget
        obtain ⟨a, b⟩ := p
        have ha : a = k := hk
        have hb : b = w := Option.some_inj.mp hval
        rw [ha, hb]
      subst hpw
      simp [List.filter, hw, alist_get, List.find?, hp]
    · have hget' : alist_get rest k = some w := by
        simpa [alist_get, List.find?, hp] using hget
      by_cases hpp : pred p
      · simpa [List.filter, hpp, alist_get, List.find?, hp] using ih hget'
      · simpa [List.filter, hpp] using ih hget'

/-! ## The eviction cap of `save_context_mapping` -/

lemma ctx_sorted_pairwise (m : CtxMap) :
    (m.mergeSort (fun a b => decide (a.2.created_at ≤ b.2.created_at))).Pairwise
      (fun a b => a.2.created_at ≤ b.2.created_at) := by
  have h := @List.sorted_mergeSort (String × CtxEntry)
      (fun a b => decide (a.2.created_at ≤ b.2.created_at))
      (fun a b c hab hbc => by
        simp only [decide_eq_true_eq] at hab hbc ⊢
        omega)
      (fun a b => by
        simp only [Bool.or_eq_true, decide_eq_true_eq]
        omega)
      m
  exact h.imp (fun hab => by simpa using hab)

/-- Behaviour of `cap_oldest` on a map with unique keys: the result is an
in-order selection of the input, its size is `min` of the input size and
10000, nothing is evicted below the cap, and every evicted entry is at least
as old as every retained one. -/
lemma cap_oldest_spec (m : CtxMap) (hnodup : (m.map Prod.fst).Nodup) :
    (cap_oldest m).Sublist m ∧
    (cap_oldest m).length = min m.length 10000 ∧
    (m.length ≤ 10000 → cap_oldest m = m) ∧
    (∀ p ∈ m, p ∉ cap_oldest m → ∀ q ∈ cap_oldest m, p.2.created_at ≤ q.2.created_at) := by
  by_cases hlen : m.length > 10000
  case neg =>
    have hout : cap_oldest m = m := by
      unfold cap_oldest
      rw [if_neg hlen]
    refine ⟨?_, ?_, fun _ => hout, ?_⟩
    · rw [hout]
    · rw [hout]
      omega
    · intro p hp hnp q _
      rw [hout] at hnp
      exact absurd hp hnp
  case pos =>
    have hout : cap_oldest m =
        m.filter (fun p =>
          !((((m.mergeSort (fun a b => decide (a.2.created_at ≤ b.2.created_at))).take
                (m.length - 10000)).map Prod.fst).contains p.1)) := by
      unfold cap_oldest
      rw [if_pos hlen]
    have hperm : (m.mergeSort (fun a b => decide (a.2.created_at ≤ b.2.created_at))).Perm m :=
      List.mergeSort_perm m _
    have hpair := ctx_sorted_pairwise m
    set sorted := m.mergeSort (fun a b => decide (a.2.created_at ≤ b.2.created_at)) with hsorted
    set n := m.length - 10000 with hn
    set dropKeys := (sorted.take n).map Prod.fst with hdk
    set pred : String × CtxEntry → Bool := fun p => !(dropKeys.contains p.1) with hpred
    have hsnodup : (sorted.map Prod.fst).Nodup := (hperm.map Prod.fst).nodup_iff.mpr hnodup
    have htd : sorted.take n ++ sorted.drop n = sorted := List.take_append_drop n sorted
    have hdisj : ((sorted.take n).map Prod.fst).Disjoint ((sorted.drop n).map Prod.fst) := by
      rw [← htd, List.map_append] at hsnodup
      exact (List.nodup_append.mp hsnodup).2.2
    have htake_pred : ∀ x ∈ sorted.take n, pred x = false := by
      intro x hx
      have hxk : x.1 ∈ dropKeys := List.mem_map.mpr ⟨x, hx, rfl⟩
      simp only [hpred, Bool.not_eq_false']
      exact List.elem_iff.mpr hxk
    have hdrop_pred : ∀ y ∈ sorted.drop n, pred y = true := by
      intro y hy
      have hyk : y.1 ∈ (sorted.drop n).map Prod.fst := List.mem_map.mpr ⟨y, hy, rfl⟩
      simp only [hpred, Bool.not_eq_true']
      rw [Bool.eq_false_iff]
      intro hc
      exact hdisj (List.elem_iff.mp hc) hyk
    have hcross : ∀ x ∈ sorted.take n, ∀ y ∈ sorted.drop n,
        x.2.created_at ≤ y.2.created_at := by
      have := htd ▸ hpair
      exact (List.pairwise_append.mp this).2.2
    have hlength : (cap_oldest m).length = min m.length 10000 := by
      rw [hout, ← List.countP_eq_length_filter]
      have h1 : m.countP pred = sorted.countP pred := (hperm.countP_eq pred).symm
      have h2 : sorted.countP pred =
          (sorted.take n).countP pred + (sorted.drop n).countP pred := by
        rw [← List.countP_append, htd]
      have h3 : (sorted.take n).countP pred = 0 := by
        rw [List.countP_eq_zero]
        intro x hx
        simp [htake_pred x hx]
      have h4 : (sorted.drop n).countP pred = (sorted.drop n).length :=
        List.countP_eq_length.mpr hdrop_pred
      have h5 : (sorted.drop n).length = sorted.length - n := List.length_drop n sorted
      have h6 : sorted.length = m.length := hperm.length_eq
      omega
    refine ⟨hout ▸ List.filter_sublist m, hlength, fun hc => absurd hc (by omega), ?_⟩
    intro p hp hnp q hq
    have hpredp : pred p = false := by
      by_cases hc : pred p
      · exact absurd (hout ▸ List.mem_filter.mpr ⟨hp, hc⟩) hnp
      · exact Bool.eq_false_iff.mpr hc
    have hpk : p.1 ∈ dropKeys := by
      simp only [hpred, Bool.not_eq_false'] at hpredp
      exact List.elem_iff.mp hpredp
    obtain ⟨x, hx, hxk⟩ := List.mem_map.mp hpk
    have hxm : x ∈ m := hperm.subset (List.take_subset n sorted hx)
    have hxp : x = p := alist_unique hnodup hxm hp hxk
    rw [hout] at hq
    have hqm := (List.mem_filter.mp hq).1
    have hqpred := (List.mem_filter.mp hq).2
    have hqs : q ∈ sorted := hperm.mem_iff.mpr hqm
    rw [← htd] at hqs
    rcases List.mem_append.mp hqs with hq1 | hq1
    · rw [htake_pred q hq1] at hqpred
      cases hqpred
    · exact hxp ▸ hcross x hx q hq1

/-- On a unique-key map whose binding of `key` is strictly newest, `cap_oldest`
never evicts that binding. -/
lemma cap_oldest_get (m : CtxMap) (key : String) (v : CtxEntry)
    (hnodup : (m.map Prod.fst).Nodup) (hget : alist_get m key = some v)
    (hmax : ∀ p ∈ m, p ≠ (key, v) → p.2.created_at < v.created_at) :
    alist_get (cap_oldest m) key = some v := by
  by_cases hlen : m.length > 10000
  case neg =>
    unfold cap_oldest
    rw [if_neg hlen]
    exact hget
  case pos =>
    have hperm : (m.mergeSort (fun a b => decide (a.2.created_at ≤ b.2.created_at))).Perm m :=
      List.mergeSort_perm m _
    have hpair := ctx_sorted_pairwise m
    set sorted := m.mergeSort (fun a b => decide (a.2.created_at ≤ b.2.created_at)) with hsorted
    set n := m.length - 10000 with hn
    set dropKeys := (sorted.take n).map Prod.fst with hdk
    set pred : String × CtxEntry → Bool := fun p => !(dropKeys.contains p.1) with hpred
    have hsnodup : (sorted.map Prod.fst).Nodup := (hperm.map Prod.fst).nodup_iff.mpr hnodup
    have htd : sorted.take n ++ sorted.drop n = sorted := List.take_append_drop n sorted
    have hdisj : ((sorted.take n).map Prod.fst).Disjoint ((sorted.drop n).map Prod.fst) := by
      rw [← htd, List.map_append] at hsnodup
      exact (List.nodup_append.mp hsnodup).2.2
    have hcross : ∀ x ∈ sorted.take n, ∀ y ∈ sorted.drop n,
        x.2.created_at ≤ y.2.created_at := by
      have := htd ▸ hpair
      exact (List.pairwise_append.mp this).2.2
    have hkv : (key, v) ∈ m := alist_get_mem hget
    have hkey_keep : key ∉ dropKeys := by
      intro hkd
      obtain ⟨x, hx, hxk⟩ := List.mem_map.mp hkd
      have hxm : x ∈ m := hperm.subset (List.take_subset n sorted hx)
      have hxkv : x = (key, v) := alist_unique hnodup hxm hkv hxk
      have hdroplen : 0 < (sorted.drop n).length := by
        have h5 : (sorted.drop n).length = sorted.length - n := List.length_drop n sorted
        have h6 : sorted.length = m.length := hperm.length_eq
        omega
      obtain ⟨y, hy⟩ := List.exists_mem_of_length_pos hdroplen
      have hym : y ∈ m := hperm.subset (List.drop_subset n sorted hy)
      have hyne : y ≠ (key, v) := by
        intro hc
        have h1 : key ∈ (sorted.take n).map Prod.fst := by
          rw [← hxk]
          exact List.mem_map.mpr ⟨x, hx, rfl⟩
        have h2 : key ∈ (sorted.drop n).map Prod.fst := by
          refine List.mem_map.mpr ⟨y, hy, ?_⟩
          rw [hc]
        exact hdisj h1 h2
      have h1 : y.2.created_at < v.created_at := hmax y hym hyne
      have h2 : v.created_at ≤ y.2.created_at := by
        have := hcross x hx y hy
        rw [hxkv] at this
        exact this
      omega
    have hpredkv : pred (key, v) = true := by
      simp only [hpred, Bool.not_eq_true']
      rw [Bool.eq_false_iff]
      intro hc
      exact hkey_keep (List.elem_iff.mp hc)
    unfold cap_oldest
    rw [if_pos hlen]
    exact alist_get_filter_first hget hpredkv

/-- On the write path (nonempty key, stored `active` account),
`save_context_mapping` is `cap_oldest` of the updated map. -/
lemma save_context_mapping_write (accounts : AccountsMap) (ctx : CtxMap)
    (key accId : String) (now : Nat) (acc : Account)
    (hkey : key ≠ "") (hid : accId ≠ "")
    (hacc : get_account accounts accId = some acc) (hactive : acc.status = "active") :
    save_context_mapping accounts ctx key accId now =
      cap_oldest (alist_set ctx key
        { account_id := accId, account_name := acc.account_name, created_at := now }) := by
  have hcond1 : ¬ ((key == "") || (accId == "")) = true := by
    simp [hkey, hid]
  have hcond2 : ¬ (acc.status != "active") = true := by
    simp [bne_iff_ne, hactive]
  unfold save_context_mapping
  rw [if_neg hcond1, hacc]
  dsimp only
  rw [if_neg hcond2]

/-- Keys of the updated map stay unique, the new binding is its strictly
newest entry (given a clock ahead of every stored timestamp), and it is
readable back; packaged for reuse. -/
lemma save_cap_spec (accounts : AccountsMap) (ctx : CtxMap) (key accId : String)
    (now : Nat) (acc : Account)
    (hkey : key ≠ "") (hid : accId ≠ "")
    (hacc : get_account accounts accId = some acc) (hactive : acc.status = "active")
    (hnodup : (ctx.map Prod.fst).Nodup)
    (hnow : ∀ p ∈ ctx, p.2.created_at < now) :
    alist_get (save_context_mapping accounts ctx key accId now) key =
        some { account_id := accId, account_name := acc.account_name, created_at := now } ∧
    (save_context_mapping accounts ctx key accId now).Sublist
        (alist_set ctx key
          { account_id := accId, account_name := acc.account_name, created_at := now }) ∧
    (save_context_mapping accounts ctx key accId now).length =
        min (alist_set ctx key
          { account_id := accId, account_name := acc.account_name, created_at := now }).length
          10000 ∧
    ((alist_set ctx key
        { account_id := accId, account_name := acc.account_name, created_at := now }).length
        ≤ 10000 →
      save_context_mapping accounts ctx key accId now =
        alist_set ctx key
          { account_id := accId, account_name := acc.account_name, created_at := now }) ∧
    (∀ p ∈ alist_set ctx key
        { account_id := accId, account_name := acc.account_name, created_at := now },
      p ∉ save_context_mapping accounts ctx key accId now →
      ∀ q ∈ save_context_mapping accounts ctx key accId now,
        p.2.created_at ≤ q.2.created_at) := by
  have hw := save_context_mapping_write accounts ctx key accId now acc hkey hid hacc hactive
  set v : CtxEntry := { account_id := accId, account_name := acc.account_name, created_at := now }
    with hv
  set m : CtxMap := alist_set ctx key v with hm
  have hmnodup : (m.map Prod.fst).Nodup := keys_nodup_alist_set key v hnodup
  have hget : alist_get m key = some v := alist_get_set_self ctx key v
  have hmax : ∀ p ∈ m, p ≠ (key, v) → p.2.created_at < v.created_at := by
    intro p hp hpne
    rcases mem_alist_set hp with h | h
    · exact absurd h hpne
    · exact hnow p h
  obtain ⟨hsub, hlen, hle, hev⟩ := cap_oldest_spec m hmnodup
  have hgot := cap_oldest_get m key v hmnodup hget hmax
  rw [hw]
  exact ⟨hgot, hsub, hlen, hle, hev⟩

/-! ## Demo stores for witnesses -/

/-- An active tenant with a token. -/
def demoAcc1 : Account :=
  { app_id := "app-1", account_name := "Acme", status := "active", access_token := some "tok1" }

/-- A second active tenant with a token. -/
def demoAcc2 : Account :=
  { app_id := "app-2", account_name := "Borg", status := "active", access_token := some "tok2" }

/-- A deactivated tenant. -/
def demoAccOff : Account :=
  { app_id := "app-3", account_name := "Idle", status := "inactive", access_token := none }

/-- A store with exactly one active tenant. -/
def demoStore1 : AccountsMap := [("a1", demoAcc1)]

/-- A store with two active tenants. -/
def demoStore2 : AccountsMap := [("a1", demoAcc1), ("a2", demoAcc2)]

/-- A store with no active tenant. -/
def demoStore0 : AccountsMap := [("a3", demoAccOff)]

/-- A context map with one cached entry for tenant `a1`. -/
def demoCtx : CtxMap := [("k0", { account_id := "a1", account_name := "Acme", created_at := 1 })]

/-! ## Claims -/

/-- C1: whenever the `accountId` query parameter names a stored account with
status `"active"` and a set (non-null, Python-truthy) `access_token`,
`resolve_account` returns exactly that account — no matter what else the store
holds — and when a `contextKey` query parameter is also supplied, the
persisted session map afterwards binds that key to this account.  (The clock
hypothesis says the current instant is later than every stored `created_at`,
and the key-uniqueness hypothesis is the dict invariant.) -/
theorem C1_explicit_hint_priority (accounts : AccountsMap) (ctx : CtxMap)
    (q : QueryParams) (vendor : Option VendorCtx) (now : Nat) (acc : Account)
    (hhint : q.accountId ≠ "")
    (hlook : get_account accounts q.accountId = some acc)
    (hact : acc.status = "active")
    (htok : strTruthy acc.access_token = true)
    (hnodup : (ctx.map Prod.fst).Nodup)
    (hnow : ∀ p ∈ ctx, p.2.created_at < now) :
    (resolve_account accounts ctx q vendor now).1 = some (q.accountId, acc) ∧
    (q.contextKey ≠ "" →
      alist_get (resolve_account accounts ctx q vendor now).2 q.contextKey =
        some { account_id := q.accountId, account_name := acc.account_name,
               created_at := now }) := by
  have hb1 : (q.accountId != "") = true := bne_iff_ne.mpr hhint
  have hcondA : (acc.status == "active" && strTruthy acc.access_token) = true := by
    simp [hact, htok]
  unfold resolve_account
  rw [if_pos hb1, hlook]
  dsimp only
  rw [if_pos hcondA]
  constructor
  · rfl
  · intro hck
    have hb2 : (q.contextKey != "") = true := bne_iff_ne.mpr hck
    dsimp only
    rw [if_pos hb2]
    exact (save_cap_spec accounts ctx q.contextKey q.accountId now acc
      hck hhint hlook hact hnodup hnow).1

/-- C1 witness: a concrete two-tenant store; the hint picks `a1` and the
session map is refreshed for the supplied key. -/
theorem C1_witness :
    ("ck" ≠ "") ∧
    (resolve_account demoStore2 demoCtx
      { contextKey := "ck", accountId := "a1", appId := "" } none 7).1 =
      some ("a1", demoAcc1) ∧
    alist_get (resolve_account demoStore2 demoCtx
      { contextKey := "ck", accountId := "a1", appId := "" } none 7).2 "ck" =
      some { account_id := "a1", account_name := "Acme", created_at := 7 } := by
  have h := C1_explicit_hint_priority demoStore2 demoCtx
    { contextKey := "ck", accountId := "a1", appId := "" } none 7 demoAcc1
    (by decide) (by decide) (by decide) (by decide) (by decide) (by decide)
  exact ⟨by decide, h.1, h.2 (by decide)⟩

/-- C2: with no hint, no session key and no `appId`, `resolve_account`
succeeds exactly when the store holds exactly one active-with-token account,
returning that account; with zero such accounts, or two or more, it returns
`none` (the caller then surfaces a structured error) and never picks one of
several arbitrarily. -/
theorem C2_single_tenant_fallback (accounts : AccountsMap) (ctx : CtxMap)
    (vendor : Option VendorCtx) (now : Nat) :
    (∀ k a, get_all_active_accounts accounts = [(k, a)] →
      (resolve_account accounts ctx
        { contextKey := "", accountId := "", appId := "" } vendor now).1 = some (k, a)) ∧
    ((get_all_active_accounts accounts).length ≠ 1 →
      (resolve_account accounts ctx
        { contextKey := "", accountId := "", appId := "" } vendor now).1 = none) := by
  constructor
  · intro k a h
    simp [resolve_account, resolve_step2, resolve_step3, resolve_step45, h]
  · intro hne
    rcases hl : get_all_active_accounts accounts with _ | ⟨x, _ | ⟨y, rest⟩⟩
    · simp [resolve_account, resolve_step2, resolve_step3, resolve_step45, hl]
    · rw [hl] at hne
      simp at hne
    · simp [resolve_account, resolve_step2, resolve_step3, resolve_step45, hl]

/-- C2 witness: with one active tenant resolution returns it; with two active
tenants (and with none) it fails. -/
theorem C2_witness :
    (resolve_account demoStore1 [] { contextKey := "", accountId := "", appId := "" }
      none 0).1 = some ("a1", demoAcc1) ∧
    (resolve_account demoStore2 [] { contextKey := "", accountId := "", appId := "" }
      none 0).1 = none ∧
    (resolve_account demoStore0 [] { contextKey := "", accountId := "", appId := "" }
      none 0).1 = none := by
  refine ⟨(C2_single_tenant_fallback demoStore1 [] none 0).1 "a1" demoAcc1 (by decide),
    (C2_single_tenant_fallback demoStore2 [] none 0).2 (by decide),
    (C2_single_tenant_fallback demoStore0 [] none 0).2 (by decide)⟩

/-- C3: a session-key lookup that finds a map entry whose referenced account
is missing, not `"active"`, or token-less deletes exactly that entry from the
persisted map (all other keys read unchanged) and returns no account, so
resolution falls through instead of returning the stale tenant. -/
theorem C3_stale_mapping_eviction (accounts : AccountsMap) (ctx : CtxMap)
    (key : String) (e : CtxEntry)
    (hkey : key ≠ "")
    (hmap : alist_get ctx key = some e)
    (hstale : ∀ acc, get_account accounts e.account_id = some acc →
      ¬(acc.status = "active" ∧ strTruthy acc.access_token = true)) :
    (get_account_id_from_context accounts ctx key).1 = none ∧
    alist_get (get_account_id_from_context accounts ctx key).2 key = none ∧
    (∀ k, k ≠ key →
      alist_get (get_account_id_from_context accounts ctx key).2 k = alist_get ctx k) := by
  have hb : ¬ (key == "") = true := by simp [hkey]
  unfold get_account_id_from_context
  rw [if_neg hb, hmap]
  dsimp only
  cases hga : get_account accounts e.account_id with
  | none =>
    dsimp only
    exact ⟨rfl, alist_get_del_self ctx key, fun k hk => alist_get_del_ne ctx key k hk⟩
  | some a =>
    dsimp only
    have hcond : (a.status != "active" || !strTruthy a.access_token) = true := by
      by_cases h1 : a.status = "active"
      · have h2 : strTruthy a.access_token = false := by
          rcases Bool.eq_false_or_eq_true (strTruthy a.access_token) with h | h
          · exact absurd ⟨h1, h⟩ (hstale a hga)
          · exact h
        simp [h2]
      · simp [bne_iff_ne, h1]
    rw [if_pos hcond]
    exact ⟨rfl, alist_get_del_self ctx key, fun k hk => alist_get_del_ne ctx key k hk⟩

/-- C3 witness: a cached entry pointing at a deactivated tenant is evicted
while the other key survives. -/
theorem C3_witness :
    (get_account_id_from_context demoStore0
      [("k0", { account_id := "a3", account_name := "Idle", created_at := 1 }),
       ("k1", { account_id := "a9", account_name := "Gone", created_at := 2 })] "k0").1
      = none ∧
    alist_get (get_account_id_from_context demoStore0
      [("k0", { account_id := "a3", account_name := "Idle", created_at := 1 }),
       ("k1", { account_id := "a9", account_name := "Gone", created_at := 2 })] "k0").2 "k0"
      = none ∧
    alist_get (get_account_id_from_context demoStore0
      [("k0", { account_id := "a3", account_name := "Idle", created_at := 1 }),
       ("k1", { account_id := "a9", account_name := "Gone", created_at := 2 })] "k0").2 "k1"
      = alist_get
        [("k0", { account_id := "a3", account_name := "Idle", created_at := 1 }),
         ("k1", { account_id := "a9", account_name := "Gone", created_at := 2 })] "k1" := by
  have h := C3_stale_mapping_eviction demoStore0
    [("k0", { account_id := "a3", account_name := "Idle", created_at := 1 }),
     ("k1", { account_id := "a9", account_name := "Gone", created_at := 2 })] "k0"
    { account_id := "a3", account_name := "Idle", created_at := 1 }
    (by decide) (by decide) (by decide)
  exact ⟨h.1, h.2.1, h.2.2 "k1" (by decide)⟩

/-- C8: after a deactivation webhook for a tenant, the tenant's stored record
(when it existed) is `"inactive"` with a `null` token, the persisted context
map has no entry pointing at that tenant, and every entry pointing at another
tenant reads back unchanged. -/
theorem C8_deactivation_purge (accounts : AccountsMap) (ctx : CtxMap)
    (account_id : String) :
    (∀ acc, get_account accounts account_id = some acc →
      get_account (deactivate_app accounts ctx account_id).1 account_id =
        some { acc with status := "inactive", access_token := none }) ∧
    (∀ p ∈ (deactivate_app accounts ctx account_id).2, p.2.account_id ≠ account_id) ∧
    (∀ k e, alist_get ctx k = some e → e.account_id ≠ account_id →
      alist_get (deactivate_app accounts ctx account_id).2 k = some e) := by
  refine ⟨?_, ?_, ?_⟩
  · intro acc hacc
    unfold deactivate_app
    rw [hacc]
    dsimp only
    exact alist_get_set_self accounts account_id _
  · intro p hp
    unfold deactivate_app at hp
    dsimp only at hp
    have := (List.mem_filter.mp hp).2
    simpa [bne_iff_ne] using this
  · intro k e hk he
    unfold deactivate_app
    dsimp only
    exact alist_get_filter_first hk (by simp [bne_iff_ne, he])

/-- C8 witness: deactivating `a1` flips its record, purges its cached key and
keeps the entry pointing at `a2`. -/
theorem C8_witness :
    get_account (deactivate_app demoStore2
      [("k0", { account_id := "a1", account_name := "Acme", created_at := 1 }),
       ("k1", { account_id := "a2", account_name := "Borg", created_at := 2 })] "a1").1 "a1" =
      some { app_id := "app-1", account_name := "Acme", status := "inactive",
             access_token := none } ∧
    alist_get (deactivate_app demoStore2
      [("k0", { account_id := "a1", account_name := "Acme", created_at := 1 }),
       ("k1", { account_id := "a2", account_name := "Borg", created_at := 2 })] "a1").2 "k1" =
      some { account_id := "a2", account_name := "Borg", created_at := 2 } := by
  have h := C8_deactivation_purge demoStore2
    [("k0", { account_id := "a1", account_name := "Acme", created_at := 1 }),
     ("k1", { account_id := "a2", account_name := "Borg", created_at := 2 })] "a1"
  exact ⟨h.1 demoAcc1 (by decide),
    h.2.2 "k1" { account_id := "a2", account_name := "Borg", created_at := 2 }
      (by decide) (by decide)⟩

/-- C9: a (write-path) call to `save_context_mapping` leaves the persisted
map with at most 10000 entries; below the cap nothing is evicted; the result
is an in-order selection of the updated map (so eviction is the only change —
reads never reorder or refresh entries, i.e. the cap is FIFO by `created_at`,
not LRU); the retained count is exactly `min` of the updated size and 10000;
and every evicted entry's `created_at` is ≤ every retained entry's. -/
theorem C9_fifo_cap (accounts : AccountsMap) (ctx : CtxMap) (key accId : String)
    (now : Nat) (acc : Account)
    (hkey : key ≠ "") (hid : accId ≠ "")
    (hacc : get_account accounts accId = some acc) (hactive : acc.status = "active")
    (hnodup : (ctx.map Prod.fst).Nodup)
    (hnow : ∀ p ∈ ctx, p.2.created_at < now) :
    (save_context_mapping accounts ctx key accId now).length ≤ 10000 ∧
    (save_context_mapping accounts ctx key accId now).Sublist
        (alist_set ctx key
          { account_id := accId, account_name := acc.account_name, created_at := now }) ∧
    ((alist_set ctx key
        { account_id := accId, account_name := acc.account_name, created_at := now }).length
        ≤ 10000 →
      save_context_mapping accounts ctx key accId now =
        alist_set ctx key
          { account_id := accId, account_name := acc.account_name, created_at := now }) ∧
    (save_context_mapping accounts ctx key accId now).length =
        min (alist_set ctx key
          { account_id := accId, account_name := acc.account_name, created_at := now }).length
          10000 ∧
    (∀ p ∈ alist_set ctx key
        { account_id := accId, account_name := acc.account_name, created_at := now },
      p ∉ save_context_mapping accounts ctx key accId now →
      ∀ q ∈ save_context_mapping accounts ctx key accId now,
        p.2.created_at ≤ q.2.created_at) := by
  obtain ⟨h1, h2, h3, h4, h5⟩ :=
    save_cap_spec accounts ctx key accId now acc hkey hid hacc hactive hnodup hnow
  exact ⟨by omega, h2, h4, h3, h5⟩

/-- C9 witness: a small write keeps the map under the cap and evicts
nothing. -/
theorem C9_witness :
    (save_context_mapping demoStore1 demoCtx "k1" "a1" 5).length ≤ 10000 ∧
    save_context_mapping demoStore1 demoCtx "k1" "a1" 5 =
      alist_set demoCtx "k1"
        { account_id := "a1", account_name := "Acme", created_at := 5 } := by
  have h := C9_fifo_cap demoStore1 demoCtx "k1" "a1" 5 demoAcc1
    (by decide) (by decide) (by decide) (by decide) (by decide) (by decide)
  exact ⟨h.1, h.2.2.1 (by decide)⟩

/-- The resolved account of steps 4–5 does not depend on the incoming context
map (only the persisted map does). -/
lemma resolve_step45_fst_ctx (accounts : AccountsMap) (q : QueryParams) (now : Nat)
    (ctx ctx' : CtxMap) :
    (resolve_step45 accounts ctx q now).1 = (resolve_step45 accounts ctx' q now).1 := by
  unfold resolve_step45
  by_cases ha : (q.appId != "") = true
  · rw [if_pos ha, if_pos ha]
    cases hb : get_account_by_app_id accounts q.appId with
    | some pr =>
      obtain ⟨k, a⟩ := pr
      rfl
    | none =>
      dsimp only
      rcases hl : get_all_active_accounts accounts with _ | ⟨⟨k, a⟩, _ | ⟨y, rest⟩⟩ <;> rfl
  · rw [if_neg ha, if_neg ha]
    rcases hl : get_all_active_accounts accounts with _ | ⟨⟨k, a⟩, _ | ⟨y, rest⟩⟩ <;> rfl

/-- With a nonempty `appId` whose lookup succeeds, steps 4–5 resolve to that
first matching account. -/
lemma resolve_step45_fst (accounts : AccountsMap) (ctx : CtxMap) (q : QueryParams)
    (now : Nat) (pr : String × Account)
    (H4 : q.appId ≠ "") (H5 : get_account_by_app_id accounts q.appId = some pr) :
    (resolve_step45 accounts ctx q now).1 = some pr := by
  unfold resolve_step45
  rw [if_pos (bne_iff_ne.mpr H4), H5]

/-- When the vendor verification cannot produce a usable account, step 3
forwards to steps 4–5 without changing the resolved account. -/
lemma resolve_step3_fst_fail (accounts : AccountsMap) (ctx : CtxMap) (q : QueryParams)
    (vendor : Option VendorCtx) (now : Nat)
    (H3 : ∀ c, vendor = some c → ∀ i, vendorExtract c = some i →
      ∀ a, get_account accounts i = some a →
        ¬(a.status = "active" ∧ strTruthy a.access_token = true)) :
    (resolve_step3 accounts ctx q vendor now).1 = (resolve_step45 accounts ctx q now).1 := by
  unfold resolve_step3
  by_cases hck : (q.contextKey != "") = true
  · rw [if_pos hck]
    cases hv : vendor with
    | none => rfl
    | some c =>
      dsimp only
      cases hve : vendorExtract c with
      | none => rfl
      | some i =>
        dsimp only
        cases hga : get_account accounts i with
        | none => rfl
        | some a =>
          dsimp only
          have hno := H3 c hv i hve a hga
          have hcond : ¬ (a.status == "active" && strTruthy a.access_token) = true := by
            intro hc
            simp only [Bool.and_eq_true, beq_iff_eq] at hc
            exact hno ⟨hc.1, hc.2⟩
          rw [if_neg hcond]
  · rw [if_neg hck]

/-- When the cached mapping cannot produce a usable account and the vendor
verification fails too, step 2 falls through to steps 4–5 (possibly after
evicting a stale entry, which does not change the resolved account). -/
lemma resolve_step2_fst_fail (accounts : AccountsMap) (ctx : CtxMap) (q : QueryParams)
    (vendor : Option VendorCtx) (now : Nat)
    (H2 : ∀ e, alist_get ctx q.contextKey = some e →
      ∀ a, get_account accounts e.account_id = some a →
        ¬(a.status = "active" ∧ strTruthy a.access_token = true))
    (H3 : ∀ c, vendor = some c → ∀ i, vendorExtract c = some i →
      ∀ a, get_account accounts i = some a →
        ¬(a.status = "active" ∧ strTruthy a.access_token = true)) :
    (resolve_step2 accounts ctx q vendor now).1 =
      (resolve_step45 accounts ctx q now).1 := by
  unfold resolve_step2
  by_cases hck : (q.contextKey != "") = true
  · rw [if_pos hck]
    unfold get_account_id_from_context
    have hkne : ¬ (q.contextKey == "") = true := by
      have := bne_iff_ne.mp hck
      simp [this]
    rw [if_neg hkne]
    cases hm : alist_get ctx q.contextKey with
    | none =>
      dsimp only
      exact resolve_step3_fst_fail accounts ctx q vendor now H3
    | some e =>
      dsimp only
      cases hga : get_account accounts e.account_id with
      | none =>
        dsimp only
        exact (resolve_step3_fst_fail accounts (alist_del ctx q.contextKey) q vendor now
          H3).trans (resolve_step45_fst_ctx accounts q now (alist_del ctx q.contextKey) ctx)
      | some a =>
        dsimp only
        have hno := H2 e hm a hga
        have hcond : (a.status != "active" || !strTruthy a.access_token) = true := by
          by_cases h1 : a.status = "active"
          · have h2 : strTruthy a.access_token = false := by
              rcases Bool.eq_false_or_eq_true (strTruthy a.access_token) with h | h
              · exact absurd ⟨h1, h⟩ hno
              · exact h
            simp [h2]
          · simp [bne_iff_ne, h1]
        rw [if_pos hcond]
        dsimp only
        exact (resolve_step3_fst_fail accounts (alist_del ctx q.contextKey) q vendor now
          H3).trans (resolve_step45_fst_ctx accounts q now (alist_del ctx q.contextKey) ctx)
  · rw [if_neg hck]
    exact resolve_step3_fst_fail accounts ctx q vendor now H3

/-- C10: when the explicit hint, the cached session mapping and the vendor
context verification all fail to produce a usable account but the request
carries a nonempty `appId`, `resolve_account` returns the first stored account
matching that `app_id` that is `"active"` with a set token
(`get_account_by_app_id`), regardless of how many active accounts exist —
this step pre-empts both the single-tenant fallback and the ambiguity
failure. -/
theorem C10_app_id_fallback (accounts : AccountsMap) (ctx : CtxMap) (q : QueryParams)
    (vendor : Option VendorCtx) (now : Nat) (pr : String × Account)
    (H1 : q.accountId = "" ∨ ∀ a, get_account accounts q.accountId = some a →
      ¬(a.status = "active" ∧ strTruthy a.access_token = true))
    (H2 : ∀ e, alist_get ctx q.contextKey = some e →
      ∀ a, get_account accounts e.account_id = some a →
        ¬(a.status = "active" ∧ strTruthy a.access_token = true))
    (H3 : ∀ c, vendor = some c → ∀ i, vendorExtract c = some i →
      ∀ a, get_account accounts i = some a →
        ¬(a.status = "active" ∧ strTruthy a.access_token = true))
    (H4 : q.appId ≠ "")
    (H5 : get_account_by_app_id accounts q.appId = some pr) :
    (resolve_account accounts ctx q vendor now).1 = some pr := by
  have hchain : (resolve_step2 accounts ctx q vendor now).1 = some pr :=
    (resolve_step2_fst_fail accounts ctx q vendor now H2 H3).trans
      (resolve_step45_fst accounts ctx q now pr H4 H5)
  unfold resolve_account
  by_cases hhint : (q.accountId != "") = true
  · rw [if_pos hhint]
    cases hga : get_account accounts q.accountId with
    | none =>
      dsimp only
      exact hchain
    | some a =>
      dsimp only
      have hno : ¬(a.status = "active" ∧ strTruthy a.access_token = true) := by
        rcases H1 with h | h
        · exact absurd (bne_iff_ne.mp hhint) (fun hc => hc h)
        · exact h a hga
      have hcond : ¬ (a.status == "active" && strTruthy a.access_token) = true := by
        intro hc
        simp only [Bool.and_eq_true, beq_iff_eq] at hc
        exact hno ⟨hc.1, hc.2⟩
      rw [if_neg hcond]
      exact hchain
  · rw [if_neg hhint]
    exact hchain

/-- C10 witness: two active tenants, no hint, no session key; `appId` picks
the matching tenant `a2` rather than failing as ambiguous. -/
theorem C10_witness :
    (resolve_account demoStore2 []
      { contextKey := "", accountId := "", appId := "app-2" } none 0).1 =
      some ("a2", demoAcc2) := by
  exact C10_app_id_fallback demoStore2 []
    { contextKey := "", accountId := "", appId := "app-2" } none 0 ("a2", demoAcc2)
    (Or.inl (by decide))
    (by intro e he; simp [alist_get] at he)
    (by intro c hc; cases hc)
    (by decide) (by decide)

/-- An activation webhook whose payload carries at least one usable (truthy)
token; vacuous for deactivations. -/
def activation_token_ok : LifecycleEvent → Prop
  | .activate _ _ _ access => (extract_first_token access).isSome = true
  | .deactivate _ => True

instance (e : LifecycleEvent) : Decidable (activation_token_ok e) := by
  cases e <;> unfold activation_token_ok <;> infer_instance

/-- The per-record invariant of claim C4 (amended): `inactive` records have a
null token, and `active` records a non-null one. -/
def record_invariant (p : String × Account) : Prop :=
  (p.2.status = "inactive" → p.2.access_token = none) ∧
  (p.2.status = "active" → p.2.access_token ≠ none)

lemma applyEvent_invariant (accounts : AccountsMap) (e : LifecycleEvent)
    (hok : activation_token_ok e)
    (hinv : ∀ p ∈ accounts, record_invariant p) :
    ∀ p ∈ applyEvent accounts e, record_invariant p := by
  intro p hp
  cases e with
  | activate a i n access =>
    unfold applyEvent activate_app at hp
    rcases mem_alist_set hp with h | h
    · subst h
      unfold activation_token_ok at hok
      refine ⟨fun hst => by simp at hst, fun _ => ?_⟩
      exact Option.isSome_iff_ne_none.mp hok
    · exact hinv p h
  | deactivate i =>
    unfold applyEvent deactivate_app at hp
    dsimp only at hp
    cases hga : get_account accounts i with
    | none =>
      rw [hga] at hp
      exact hinv p hp
    | some acc =>
      rw [hga] at hp
      dsimp only at hp
      rcases mem_alist_set hp with h | h
      · subst h
        exact ⟨fun _ => rfl, fun hst => by simp at hst⟩
      · exact hinv p h

lemma foldl_events_invariant : ∀ (evs : List LifecycleEvent) (accounts : AccountsMap),
    (∀ e ∈ evs, activation_token_ok e) → (∀ p ∈ accounts, record_invariant p) →
    ∀ p ∈ evs.foldl applyEvent accounts, record_invariant p := by
  intro evs
  induction evs with
  | nil => intro accounts _ hbase; simpa using hbase
  | cons e rest ih =>
    intro accounts hok hbase
    simp only [List.foldl_cons]
    exact ih (applyEvent accounts e)
      (fun x hx => hok x (List.mem_cons_of_mem e hx))
      (applyEvent_invariant accounts e (hok e (List.mem_cons_self e rest)) hbase)

lemma runEvents_invariant (evs : List LifecycleEvent)
    (hok : ∀ e ∈ evs, activation_token_ok e) :
    ∀ p ∈ runEvents evs, record_invariant p :=
  foldl_events_invariant evs [] hok (by intro p hp; cases hp)

/-- C4 counterexample: an activation whose `access[]` list holds no usable
token persists a record with status `"active"` and a `null` `access_token`,
so the claimed invariant ("status active implies non-null token, even when
the payload carries no usable token") fails on the store the code writes. -/
theorem C4_counterexample :
    ¬ (∀ p ∈ runEvents [LifecycleEvent.activate "app-1" "acc-1" "Tenant" []],
        (p.2.status = "active" → p.2.access_token ≠ none) ∧
        (p.2.status = "inactive" → p.2.access_token = none)) := by
  decide

/-- The unconditional half of the C4 invariant: records only become
`"inactive"` through `deactivate_app`, which also nulls the token. -/
def inactive_null (p : String × Account) : Prop :=
  p.2.status = "inactive" → p.2.access_token = none

lemma applyEvent_inactive_null (accounts : AccountsMap) (e : LifecycleEvent)
    (hinv : ∀ p ∈ accounts, inactive_null p) :
    ∀ p ∈ applyEvent accounts e, inactive_null p := by
  intro p hp
  cases e with
  | activate a i n access =>
    unfold applyEvent activate_app at hp
    rcases mem_alist_set hp with h | h
    · subst h
      intro hst
      simp at hst
    · exact hinv p h
  | deactivate i =>
    unfold applyEvent deactivate_app at hp
    dsimp only at hp
    cases hga : get_account accounts i with
    | none =>
      rw [hga] at hp
      exact hinv p hp
    | some acc =>
      rw [hga] at hp
      dsimp only at hp
      rcases mem_alist_set hp with h | h
      · subst h
        intro _
        rfl
      · exact hinv p h

lemma foldl_events_inactive_null : ∀ (evs : List LifecycleEvent) (accounts : AccountsMap),
    (∀ p ∈ accounts, inactive_null p) →
    ∀ p ∈ evs.foldl applyEvent accounts, inactive_null p := by
  intro evs
  induction evs with
  | nil => intro accounts hbase; simpa using hbase
  | cons e rest ih =>
    intro accounts hbase
    simp only [List.foldl_cons]
    exact ih (applyEvent accounts e) (applyEvent_inactive_null accounts e hbase)

/-- C4 (amended): over every webhook sequence from the empty store, every
persisted record with status `"inactive"` has a null token — unconditionally;
and provided every activation payload carried a usable token, every record
with status `"active"` has a non-null token.  (Unconditionally, an activation
with no usable token stores `"active"` with a null token — see the
counterexample.) -/
theorem C4_activation_invariant (evs : List LifecycleEvent) :
    (∀ p ∈ runEvents evs, p.2.status = "inactive" → p.2.access_token = none) ∧
    ((∀ e ∈ evs, activation_token_ok e) →
      ∀ p ∈ runEvents evs, p.2.status = "active" → p.2.access_token ≠ none) := by
  constructor
  · intro p hp
    exact foldl_events_inactive_null evs [] (by intro p hp; cases hp) p hp
  · intro hok p hp
    exact (runEvents_invariant evs hok p hp).2

/-- C4 witness: a token-less activation followed by a deactivation still
yields a null token on the inactive record (unconditional half), and a
token-carrying activation yields an active record with a token (conditional
half). -/
theorem C4_witness :
    (∀ p ∈ runEvents [LifecycleEvent.activate "app-1" "acc-1" "Tenant" [],
            LifecycleEvent.deactivate "acc-1"],
      p.2.status = "inactive" → p.2.access_token = none) ∧
    (∀ e ∈ [LifecycleEvent.activate "app-1" "acc-1" "Tenant" [some "tok"]],
      activation_token_ok e) ∧
    (∀ p ∈ runEvents [LifecycleEvent.activate "app-1" "acc-1" "Tenant" [some "tok"]],
      p.2.status = "active" → p.2.access_token ≠ none) :=
  ⟨(C4_activation_invariant [LifecycleEvent.activate "app-1" "acc-1" "Tenant" [],
      LifecycleEvent.deactivate "acc-1"]).1,
   by decide,
   (C4_activation_invariant [LifecycleEvent.activate "app-1" "acc-1" "Tenant"
      [some "tok"]]).2 (by decide)⟩

/-- C5 counterexample: for an unknown HTTP method string, `ms_api` returns
the bare `{"_error": "Unknown method"}` dict with no `"_status"` key at all,
refuting "for every method string … always carries a numeric status code
under key `_status`". -/
theorem C5_counterexample :
    ¬ (∀ (method : String) (att : HttpAttempt Unit),
        ((ms_api method att).status).isSome = true) := by
  intro h
  exact absurd (h "DELETE" (HttpAttempt.response 200 (RespParse.dict ()) "")) (by decide)

/-- C5 (amended): for the methods `ms_api` implements (GET/POST/PUT) the
result always carries a numeric `_status`; `_status` 0 arises exactly for
transport failures and for HTTP responses whose JSON body parses to a
non-object (where `result["_status"] = …` raises `TypeError`, swallowed by
the same `except` that handles transport errors); an object body is returned
parsed; an unparseable body falls back to truncated raw text with the HTTP
code.  4xx/5xx responses never raise (`ms_api` is total by construction).
Unknown methods return an error marker with no status.  The HTTP-side
hypothesis `100 ≤ code` is the HTTP guarantee that real status codes are
never 0. -/
theorem C5_gateway_envelope (β : Type) (method : String) (att : HttpAttempt β)
    (hm : method = "GET" ∨ method = "POST" ∨ method = "PUT")
    (hhttp : ∀ code p t, att = HttpAttempt.response code p t → 100 ≤ code) :
    ((ms_api method att).status).isSome = true ∧
    ((ms_api method att).status = some 0 ↔
      ((∃ msg, att = HttpAttempt.failure msg) ∨
       (∃ code t, att = HttpAttempt.response code RespParse.nonDict t))) ∧
    (∀ code b t, att = HttpAttempt.response code (RespParse.dict b) t →
      (ms_api method att).body = some b ∧ (ms_api method att).status = some code) ∧
    (∀ code t, att = HttpAttempt.response code RespParse.invalid t →
      (ms_api method att).text = some (t.take 1000) ∧
      (ms_api method att).status = some code) := by
  have hguard : ¬ (!(method == "GET" || method == "POST" || method == "PUT")) = true := by
    rcases hm with h | h | h <;> simp [h]
  unfold ms_api
  rw [if_neg hguard]
  cases att with
  | failure msg =>
    refine ⟨rfl, by simp, ?_, ?_⟩
    · intro code b t h
      cases h
    · intro code t h
      cases h
  | response code parsed t =>
    have hcode : 100 ≤ code := hhttp code parsed t rfl
    cases parsed with
    | dict b =>
      refine ⟨rfl, ?_, ?_, ?_⟩
      · simp only [Option.some.injEq]
        constructor
        · intro h
          omega
        · rintro (⟨msg, hmsg⟩ | ⟨c2, t2, hr⟩)
          · cases hmsg
          · injection hr with h1 h2 h3
            cases h2
      · intro c2 b2 t2 h
        injection h with h1 h2 h3
        injection h2 with hb
        subst hb
        exact ⟨rfl, by rw [h1]⟩
      · intro c2 t2 h
        injection h with h1 h2 h3
        cases h2
    | nonDict =>
      refine ⟨rfl, ?_, ?_, ?_⟩
      · simp only [Option.some.injEq]
        constructor
        · intro _
          exact Or.inr ⟨code, t, rfl⟩
        · intro _
          trivial
      · intro c2 b2 t2 h
        injection h with h1 h2 h3
        cases h2
      · intro c2 t2 h
        injection h with h1 h2 h3
        cases h2
    | invalid =>
      refine ⟨rfl, ?_, ?_, ?_⟩
      · simp only [Option.some.injEq]
        constructor
        · intro h
          omega
        · rintro (⟨msg, hmsg⟩ | ⟨c2, t2, hr⟩)
          · cases hmsg
          · injection hr with h1 h2 h3
            cases h2
      · intro c2 b2 t2 h
        injection h with h1 h2 h3
        cases h2
      · intro c2 t2 h
        injection h with h1 h2 h3
        exact ⟨by rw [h3], by rw [h1]⟩

/-- C5 witness: a transport failure on a GET carries `_status` 0. -/
theorem C5_witness :
    ("GET" = "GET" ∨ "GET" = "POST" ∨ "GET" = "PUT") ∧
    ((ms_api "GET" (HttpAttempt.failure "timeout") : MsResult Unit).status).isSome = true ∧
    ((ms_api "GET" (HttpAttempt.failure "timeout") : MsResult Unit).status = some 0) :=
  ⟨Or.inl rfl,
   (C5_gateway_envelope Unit "GET" (HttpAttempt.failure "timeout") (Or.inl rfl)
     (by intro code p t h; cases h)).1,
   ((C5_gateway_envelope Unit "GET" (HttpAttempt.failure "timeout") (Or.inl rfl)
     (by intro code p t h; cases h)).2.1).mpr (Or.inl ⟨"timeout", rfl⟩)⟩

lemma skipped_iff (item : ExpenseItem) :
    skipped item ↔ (item.demandNumber.trim == "" || decide (item.expense ≤ 0)) = true := by
  simp [skipped]

lemma processFrom_count (oc : Nat → DocOutcome) (items : List ExpenseItem) :
    ∀ (idx : Nat) (log : BatchLog),
    (processFrom oc idx log items).results.length +
      (processFrom oc idx log items).errors.length =
      log.results.length + log.errors.length +
      (items.filter (fun it => !decide (skipped it))).length := by
  induction items with
  | nil =>
    intro idx log
    simp [processFrom]
  | cons item rest ih =>
    intro idx log
    rw [processFrom, ih]
    by_cases hsk : skipped item
    · have hstep : processItem oc log idx item = log := by
        unfold processItem
        rw [if_pos ((skipped_iff item).mp hsk)]
      rw [hstep]
      simp [List.filter_cons, hsk]
    · have hc : ¬ (item.demandNumber.trim == "" || decide (item.expense ≤ 0)) = true :=
        fun h => hsk ((skipped_iff item).mpr h)
      have hfil : List.filter (fun it => !decide (skipped it)) (item :: rest) =
          item :: List.filter (fun it => !decide (skipped it)) rest := by
        simp [List.filter_cons, hsk]
      rw [hfil]
      unfold processItem
      rw [if_neg hc]
      cases oc idx <;> simp <;> omega

/-- C6: in every `process-expenses` batch, an adjustment whose stripped
document number is blank or whose amount is non-positive is skipped silently
(the log is unchanged: no success and no error record), and the total number
of `results` plus `errorDetails` records equals the number of non-skipped
input items — each non-skipped item yields exactly one record. -/
theorem C6_skip_and_count (items : List ExpenseItem) (oc : Nat → DocOutcome) :
    ((process_expenses items oc).results.length +
      (process_expenses items oc).errors.length =
      (items.filter (fun it => !decide (skipped it))).length) ∧
    (∀ log idx item, skipped item → processItem oc log idx item = log) := by
  constructor
  · have h := processFrom_count oc items 1 { results := [], errors := [] }
    simpa [process_expenses] using h
  · intro log idx item hsk
    unfold processItem
    rw [if_pos ((skipped_iff item).mp hsk)]

/-- Batch for the C6 witness: one processable line, one blank line, one
zero-amount line. -/
def demoBatch : List ExpenseItem :=
  [{ demandNumber := "DG-1", expense := 250, category := none },
   { demandNumber := " ", expense := 5, category := none },
   { demandNumber := "DG-2", expense := 0, category := none }]

/-- ERP behaviour for the C6 witness: every looked-up document is missing. -/
def demoOutcome : Nat → DocOutcome := fun _ => DocOutcome.notFound "not found"

/-- C6 witness: the record count matches the non-skipped count, and the
zero-amount line leaves the log untouched. -/
theorem C6_witness :
    ((process_expenses demoBatch demoOutcome).results.length +
      (process_expenses demoBatch demoOutcome).errors.length =
      (demoBatch.filter (fun it => !decide (skipped it))).length) ∧
    processItem demoOutcome { results := [], errors := [] } 3
      { demandNumber := "DG-2", expense := 0, category := none } =
      { results := [], errors := [] } :=
  ⟨(C6_skip_and_count demoBatch demoOutcome).1,
   (C6_skip_and_count demoBatch demoOutcome).2 { results := [], errors := [] } 3
     { demandNumber := "DG-2", expense := 0, category := none } (Or.inr le_rfl)⟩

/-! ## C7: binary64 evaluation of `int(add_sum * 100)` -/

lemma int_log2_eq {q : ℚ} {e : ℤ} (hq : 0 < q)
    (h1 : (2:ℚ) ^ e ≤ q) (h2 : q < (2:ℚ) ^ (e + 1)) : Int.log 2 q = e := by
  have ha : e ≤ Int.log 2 q := (Int.zpow_le_iff_le_log (by norm_num) hq).mp h1
  have hb : Int.log 2 q < e + 1 := (Int.lt_zpow_iff_log_lt (by norm_num) hq).mp h2
  omega

lemma fl64_on_binade {q : ℚ} {e : ℤ} (hq : 0 < q)
    (h1 : (2:ℚ) ^ e ≤ q) (h2 : q < (2:ℚ) ^ (e + 1)) :
    fl64 q = ((round (q * (2:ℚ) ^ (52 - e)) : ℤ) : ℚ) * (2:ℚ) ^ (e - 52) := by
  unfold fl64
  rw [if_neg hq.ne', abs_of_pos hq, int_log2_eq hq h1 h2]

lemma rat_round_eq {q : ℚ} {n : ℤ} (h1 : (n:ℚ) ≤ q + 1/2) (h2 : q + 1/2 < n + 1) :
    round q = n := by
  rw [round_eq]
  exact Int.floor_eq_iff.mpr ⟨h1, h2⟩

/-- The double nearest `0.29`: mantissa `round(0.29·2^54) = 5224175567749775`
(the exact product ends in `.36`, so this is not a tie and round-half-up
agrees with IEEE round-half-even). -/
lemma double_0_29_val : double_0_29 = 5224175567749775 / 2 ^ 54 := by
  unfold double_0_29
  have h1 : (2:ℚ) ^ (-2 : ℤ) ≤ (29:ℚ) / 100 := by
    rw [zpow_neg]
    norm_num
  have h2 : (29:ℚ) / 100 < (2:ℚ) ^ ((-2 : ℤ) + 1) := by
    norm_num [zpow_neg]
  rw [fl64_on_binade (by norm_num) h1 h2]
  have hr : round ((29:ℚ) / 100 * (2:ℚ) ^ ((52:ℤ) - (-2 : ℤ))) = 5224175567749775 := by
    apply rat_round_eq
    · norm_num
    · norm_num
  norm_num at hr ⊢
  rw [hr]
  norm_num [zpow_neg]

/-- The double product `double(0.29) * 100` (one binary64 multiplication):
the exact product sits in the binade `[16, 32)` and rounds (no tie: the
scaled value ends in `.4375`) to one ulp below 29. -/
lemma double_0_29_mul_100 : fl64 (double_0_29 * 100) = 8162774324609023 / 2 ^ 48 := by
  rw [double_0_29_val]
  have hval : (5224175567749775 : ℚ) / 2 ^ 54 * 100 = 130604389193744375 / 2 ^ 52 := by
    norm_num
  rw [hval]
  have h1 : (2:ℚ) ^ (4 : ℤ) ≤ (130604389193744375 : ℚ) / 2 ^ 52 := by
    norm_num
  have h2 : (130604389193744375 : ℚ) / 2 ^ 52 < (2:ℚ) ^ ((4 : ℤ) + 1) := by
    norm_num
  rw [fl64_on_binade (by positivity) h1 h2]
  have hr : round ((130604389193744375 : ℚ) / 2 ^ 52 * (2:ℚ) ^ ((52:ℤ) - (4 : ℤ)))
      = 8162774324609023 := by
    apply rat_round_eq
    · norm_num
    · norm_num
  norm_num at hr ⊢
  rw [hr]
  norm_num [zpow_neg]

/-- C7 (code bug): posting the adjustment `0.29` (which arrives as the
binary64 double nearest 0.29) to a document with a zero prior overhead stores
`0 + int(0.29 * 100) = 28` minor units, not the exact 29 — `int(add_sum*100)`
truncates the double product `28.999999999999996…`, so the code's conversion
to minor units is not exact and drifts by one minor unit. -/
theorem C7_minor_unit_truncation :
    update_document_overhead (some 0) double_0_29 = 28 ∧ (28 : ℤ) ≠ 29 := by
  constructor
  · unfold update_document_overhead py_int_mul_100
    rw [double_0_29_mul_100]
    unfold pyInt
    rw [if_pos (by positivity)]
    have hfl : ⌊(8162774324609023 : ℚ) / 2 ^ 48⌋ = 28 := by
      apply Int.floor_eq_iff.mpr
      constructor
      · norm_num
      · norm_num
    rw [hfl]
    decide
  · decide
